import Mathlib

/-
Verification of the asdcplib core (AS_02_IAB.cpp, AS_DCP_AES.cpp, h__Reader.cpp)
against its natural-language specification.  The C++ sources are shallowly
embedded: machine integers become Nat with explicit reductions modulo 2^32 or
2^64 where the source wraps, byte buffers become List Nat, the file becomes an
association of byte positions to bytes, and the OpenSSL primitives (AES block
cipher, SHA-1) and the out-of-scope Kumu file layer are abstracted as function
parameters or success flags, as the specification treats them as external
collaborators.
-/

namespace Asdcp

/-- Result codes surfaced to callers (section 6 of the spec; Kumu::RESULT_*). -/
inductive Result where
  | OK
  | INIT
  | STATE
  | FAIL
  | FORMAT
  | READFAIL
  | RANGE
  | SMALLBUF
  | CRYPT_INIT
  | HMACFAIL
deriving DecidableEq, Repr

/-! ## Byte-string helpers -/

/-- Byte-wise XOR of two equal-length byte strings. -/
def xorBytes (a b : List Nat) : List Nat := List.zipWith Nat.xor a b

/-- Big-endian interpretation of a byte string as a natural number
(`BN_bin2bn`). -/
def bytesToNat (l : List Nat) : Nat := l.foldl (fun a b => a * 256 + b) 0

/-- Little-endian base-256 digits of `n`, minimal length, with explicit fuel
so that the recursion is structural. -/
def natBytesLEAux : Nat → Nat → List Nat
  | 0, _ => []
  | fuel + 1, n => if n = 0 then [] else n % 256 :: natBytesLEAux fuel (n / 256)

/-- Minimal big-endian byte representation of a natural number
(`BN_bn2bin` together with `BN_num_bytes`): the empty string for 0. -/
def natBytesBE (n : Nat) : List Nat := (natBytesLEAux n n).reverse

/-- Fixed-width big-endian byte representation: exactly `k` bytes. -/
def natBytesFixed : Nat → Nat → List Nat
  | _, 0 => []
  | v, k + 1 => v / 256 ^ k % 256 :: natBytesFixed v k

theorem natBytesFixed_length (v : Nat) : ∀ k, (natBytesFixed v k).length = k := by
  intro k
  induction k with
  | zero => rfl
  | succ k ih => simp [natBytesFixed, ih]

theorem bytesToNat_natBytesFixed_aux (v : Nat) :
    ∀ k a, List.foldl (fun x b => x * 256 + b) a (natBytesFixed v k)
      = a * 256 ^ k + v % 256 ^ k := by
  intro k
  induction k with
  | zero => intro a; simp [natBytesFixed, Nat.mod_one]
  | succ k ih =>
    intro a
    have hsplit : 256 ^ k * (v / 256 ^ k % 256) + v % 256 ^ k = v % 256 ^ (k + 1) := by
      rw [pow_succ, Nat.mod_mul]
      ring
    calc List.foldl (fun x b => x * 256 + b) a (natBytesFixed v (k + 1))
        = List.foldl (fun x b => x * 256 + b) (a * 256 + v / 256 ^ k % 256)
            (natBytesFixed v k) := rfl
      _ = (a * 256 + v / 256 ^ k % 256) * 256 ^ k + v % 256 ^ k := ih _
      _ = a * 256 ^ (k + 1) + (256 ^ k * (v / 256 ^ k % 256) + v % 256 ^ k) := by
          rw [pow_succ]; ring
      _ = a * 256 ^ (k + 1) + v % 256 ^ (k + 1) := by rw [hsplit]

theorem bytesToNat_natBytesFixed (v k : Nat) :
    bytesToNat (natBytesFixed v k) = v % 256 ^ k := by
  have h := bytesToNat_natBytesFixed_aux v k 0
  simpa [bytesToNat] using h

/-! ## AES-CBC chaining (AS_DCP_AES.cpp, EncryptBlock / DecryptBlock)

The AES block permutation itself lives in OpenSSL and is out of scope; it is
abstracted as a function parameter.  A plaintext whose length is a multiple of
16 is represented as a list of 16-byte blocks. -/

/-- CBC encryption chaining from `AESEncContext::EncryptBlock`: per block,
`tmp = pt XOR iv; ct = ecb tmp; iv := ct`.  Returns the ciphertext blocks and
the final IV held in the context. -/
def encryptCBC (ecb : List Nat → List Nat) : List Nat → List (List Nat) →
    List (List Nat) × List Nat
  | iv, [] => ([], iv)
  | iv, pt :: rest =>
    let ct := ecb (xorBytes pt iv)
    let r := encryptCBC ecb ct rest
    (ct :: r.1, r.2)

/-- CBC decryption chaining from `AESDecContext::DecryptBlock`: per block,
`tmp = dec ct; out = tmp XOR iv; iv := ct`. -/
def decryptCBC (dec : List Nat → List Nat) : List Nat → List (List Nat) →
    List (List Nat) × List Nat
  | iv, [] => ([], iv)
  | iv, ct :: rest =>
    let out := xorBytes (dec ct) iv
    let r := decryptCBC dec ct rest
    (out :: r.1, r.2)

theorem xorBytes_cancel : ∀ a b : List Nat, a.length = b.length →
    xorBytes (xorBytes a b) b = a := by
  intro a
  induction a with
  | nil => intro b _; cases b <;> rfl
  | cons x xs ih =>
    intro b hb
    cases b with
    | nil => simp at hb
    | cons y ys =>
      simp only [xorBytes, List.zipWith_cons_cons, List.cons.injEq]
      exact ⟨Nat.xor_cancel_right y x, ih ys (by simpa using hb)⟩

theorem xorBytes_length (a b : List Nat) (h : a.length = b.length) :
    (xorBytes a b).length = a.length := by
  simp [xorBytes, h]

/-! ## SMPTE 429.6 MIC key derivation (HMACContext::h__HMACContext::SetKey)

SHA-1 lives in OpenSSL and is abstracted as a function parameter. -/

/-- The fixed FIPS 186-2 seed `t` used by the SMPTE key derivation. -/
def tSeed : List Nat :=
  [0x67, 0x45, 0x23, 0x01, 0xef, 0xcd, 0xab, 0x89,
   0x98, 0xba, 0xdc, 0xfe, 0x10, 0x32, 0x54, 0x76,
   0xc3, 0xd2, 0xe1, 0xf0]

/-- Transcription of `h__HMACContext::SetKey` (AS_DCP_AES.cpp lines 262-326):
`x0 = SHA1(t || key)`; `xkey1 = BN(key)`; `BN_add_word(xkey1, 1)`;
`xkey2 = xkey1 + x0`; `xkey1 = xkey2 mod 2^160`; the MIC key is the first 16
bytes of `SHA1(t || bn2bin(xkey1))`. -/
def setKeyCode (sha1 : List Nat → List Nat) (key : List Nat) : List Nat :=
  let x0 := sha1 (tSeed ++ key)
  let xkey1 := bytesToNat key
  let xkey1a := xkey1 + 1
  let xkey2 := xkey1a + bytesToNat x0
  let xkey1b := xkey2 % 2 ^ 160
  (sha1 (tSeed ++ natBytesBE xkey1b)).take 16

/-- The spec's words (section 4.5, key derivation, standards-track):
round 1 computes `x0 = SHA1(t || key)` and `xkey1 = (key + 1 + x0) mod 2^160`
with exact big-integer arithmetic; round 2 outputs the first 16 bytes of
`SHA1(t || xkey1)`. -/
def setKeySpecFormula (sha1 : List Nat → List Nat) (key : List Nat) : List Nat :=
  let x0 := sha1 (tSeed ++ key)
  let xkey1 := (bytesToNat key + 1 + bytesToNat x0) % 2 ^ 160
  (sha1 (tSeed ++ natBytesBE xkey1)).take 16

/-- A deliberately wrong variant in which the addition is truncated to 128
bits (the shortcut the spec forbids: a naive 128-bit adder dropping carries). -/
def setKeyDropCarry (sha1 : List Nat → List Nat) (key : List Nat) : List Nat :=
  let x0 := sha1 (tSeed ++ key)
  let xkey1 := (bytesToNat key + 1 + bytesToNat x0) % 2 ^ 128
  (sha1 (tSeed ++ natBytesBE xkey1)).take 16

/-- A concrete stand-in hash used only to separate the exact derivation from
the carry-dropping one: the last 20 input bytes, reversed. -/
def revSha20 (l : List Nat) : List Nat := l.reverse.take 20

/-- The all-ones 16-byte key, whose increment carries out of 128 bits. -/
def keyAllFF : List Nat := List.replicate 16 255

/-- MXF Interop MIC key generation (`SetInteropKey`): the first 16 bytes of
`SHA1(key || key_nonce)`. -/
def setInteropKey (sha1 : List Nat → List Nat) (key : List Nat) : List Nat :=
  (sha1 (key ++ [0x00, 0x11, 0x22, 0x33, 0x44, 0x55, 0x66, 0x77,
                 0x88, 0x99, 0xaa, 0xbb, 0xcc, 0xdd, 0xee, 0xff])).take 16

/-! ## HMAC context state machine (AS_DCP_AES.cpp, HMACContext)

The inner SHA-1 accumulation is represented by the list of byte chunks fed to
it so far; SHA-1 itself is an abstract parameter. -/

/-- The 16-byte inner pad constant. -/
def ipadConst : List Nat := List.replicate 16 0x36

/-- The 16-byte outer pad constant. -/
def opadConst : List Nat := List.replicate 16 0x5c

/-- The label-set selector passed to `HMACContext::InitKey`. -/
inductive LabelSet where
  | interop
  | smpte
  | unknown
deriving DecidableEq, Repr

/-- State of an `HMACContext`: whether `m_Context` is non-null, the `m_Final`
flag, the derived MIC key, the chunks absorbed by the running inner SHA-1,
and the `sha_value` output buffer. -/
structure HmacSt where
  hasContext : Bool
  mFinal : Bool
  key : List Nat
  absorbed : List (List Nat)
  shaValue : List Nat
deriving DecidableEq, Repr

/-- A context whose `m_Context` handle is null (a fresh `HMACContext`). -/
def hmacNull : HmacSt :=
  { hasContext := false, mFinal := false, key := [], absorbed := [], shaValue := [] }

/-- `h__HMACContext::Reset`: clear `sha_value` and `m_Final`, restart the
running SHA-1 and feed it `key XOR ipad`. -/
def hmacReset (st : HmacSt) : HmacSt :=
  { st with shaValue := List.replicate 20 0, mFinal := false,
            absorbed := [xorBytes st.key ipadConst] }

/-- `HMACContext::InitKey`: allocate the context, derive the MIC key per the
label set (`unknown` drops the context and returns `INIT`), then `Reset`. -/
def hmacInitKey (sha1 : List Nat → List Nat) (key : List Nat) (setType : LabelSet) :
    Result × HmacSt :=
  match setType with
  | LabelSet.smpte =>
    (Result.OK, hmacReset { hmacNull with hasContext := true, key := setKeyCode sha1 key })
  | LabelSet.interop =>
    (Result.OK, hmacReset { hmacNull with hasContext := true, key := setInteropKey sha1 key })
  | LabelSet.unknown => (Result.INIT, hmacNull)

/-- `HMACContext::Update`: `INIT` if the context is null or already finalized,
otherwise absorb the chunk into the running SHA-1. -/
def hmacUpdate (st : HmacSt) (buf : List Nat) : Result × HmacSt :=
  if !st.hasContext || st.mFinal then (Result.INIT, st)
  else (Result.OK, { st with absorbed := st.absorbed ++ [buf] })

/-- `HMACContext::Finalize`: `INIT` if the context is null or already
finalized; otherwise finish the inner hash, hash `key XOR opad` followed by
the inner digest, store the result and set `m_Final`. -/
def hmacFinalize (sha1 : List Nat → List Nat) (st : HmacSt) : Result × HmacSt :=
  if !st.hasContext || st.mFinal then (Result.INIT, st)
  else
    let inner := sha1 st.absorbed.flatten
    (Result.OK, { st with shaValue := sha1 (xorBytes st.key opadConst ++ inner),
                          mFinal := true })

/-- `HMACContext::GetHMACValue`: `INIT` before finalization, otherwise a copy
of the 20-byte digest. -/
def getHMACValue (st : HmacSt) : Result × List Nat :=
  if !st.hasContext || !st.mFinal then (Result.INIT, [])
  else (Result.OK, st.shaValue)

/-- `HMACContext::TestHMACValue`: `INIT` before finalization, then `OK` on an
exact digest match and `HMACFAIL` otherwise. -/
def testHMACValue (st : HmacSt) (buf : List Nat) : Result :=
  if !st.hasContext || !st.mFinal then Result.INIT
  else if buf = st.shaValue then Result.OK else Result.HMACFAIL

/-! ## File model shared by writer and reader

The file is an association of byte positions to bytes, most recent write
first; reads of never-written positions return 0. -/

/-- Look up the most recently written byte at position `p`. -/
def fileByte : List (Nat × Nat) → Nat → Nat
  | [], _ => 0
  | (q, b) :: rest, p => if q = p then b else fileByte rest p

/-- Write a byte string starting at position `pos`. -/
def writeBytesAt : List (Nat × Nat) → Nat → List Nat → List (Nat × Nat)
  | f, _, [] => f
  | f, pos, b :: bs => writeBytesAt ((pos, b) :: f) (pos + 1) bs

/-- Read `k` bytes starting at position `pos`. -/
def readBytesAt (f : List (Nat × Nat)) : Nat → Nat → List Nat
  | _, 0 => []
  | pos, k + 1 => fileByte f pos :: readBytesAt f (pos + 1) k

theorem fileByte_writeBytesAt_lt :
    ∀ (bs : List Nat) (f : List (Nat × Nat)) (q p : Nat), p < q →
      fileByte (writeBytesAt f q bs) p = fileByte f p := by
  intro bs
  induction bs with
  | nil => intro f q p _; rfl
  | cons b bs ih =>
    intro f q p hpq
    have h := ih ((q, b) :: f) (q + 1) p (Nat.lt_succ_of_lt hpq)
    simp only [writeBytesAt] at h ⊢
    rw [h]
    simp [fileByte, Nat.ne_of_gt hpq]

theorem readBytesAt_writeBytesAt :
    ∀ (bs : List Nat) (f : List (Nat × Nat)) (q : Nat),
      readBytesAt (writeBytesAt f q bs) q bs.length = bs := by
  intro bs
  induction bs with
  | nil => intro f q; rfl
  | cons b bs ih =>
    intro f q
    simp only [writeBytesAt, List.length_cons, readBytesAt, List.cons.injEq]
    refine ⟨?_, ih ((q, b) :: f) (q + 1)⟩
    rw [fileByte_writeBytesAt_lt bs ((q, b) :: f) (q + 1) q (Nat.lt_succ_self q)]
    simp [fileByte]

/-! ## BER lengths -/

/-- Modelled from the spec: `Kumu::write_BER` (the Kumu layer is outside the
three source files).  Long form with a fixed total width `ber_len`: the first
byte is `0x80 + (ber_len - 1)`, followed by `ber_len - 1` big-endian value
bytes; fails when the value does not fit. -/
def write_BER (value ber_len : Nat) : Option (List Nat) :=
  if ber_len = 0 then none
  else if value < 256 ^ (ber_len - 1) then
    some ((0x80 + (ber_len - 1)) :: natBytesFixed value (ber_len - 1))
  else none

/-- BER length decoding (section 4.1 of the spec): short form is a single
byte below 0x80; long form `0x80 + n` is followed by `n` big-endian bytes. -/
def decodeBER (bs : List Nat) : Option Nat :=
  match bs with
  | [] => none
  | b0 :: rest =>
    if 0x80 ≤ b0 then
      if b0 - 0x80 ≤ rest.length then some (bytesToNat (rest.take (b0 - 0x80)))
      else none
    else some b0

/-! ## IAB writer state machine (AS_02_IAB.cpp, AS_02::IAB::MXFWriter)

File writes and the header/footer serialization are out-of-scope Kumu/MXF
machinery; in the model a write always succeeds, the header is abstracted by
the file position `headerEnd` at which `WriteAS02Header` leaves the file, and
the essence element UL is a 16-byte parameter. -/

inductive WState where
  | BEGIN
  | READY
  | RUNNING
deriving DecidableEq, Repr

/-- State of an `AS_02::IAB::MXFWriter` together with its file: the writer
state, whether `m_Writer` is non-null, `m_ClipStart`, the 32-bit
`m_StreamOffset`, `m_FramesWritten`, the stream offsets pushed to the index
writer, the file position, and the file bytes. -/
structure WriterSt where
  wstate : WState
  hasWriter : Bool
  clipStart : Nat
  streamOffset : Nat
  framesWritten : Nat
  indexEntries : List Nat
  filePos : Nat
  file : List (Nat × Nat)
deriving DecidableEq, Repr

/-- A freshly constructed `MXFWriter`. -/
def initWriter : WriterSt :=
  { wstate := WState.BEGIN, hasWriter := false, clipStart := 0, streamOffset := 0,
    framesWritten := 0, indexEntries := [], filePos := 0, file := [] }

/-- `MXFWriter::Reset`: drop `m_Writer` and return to `BEGIN`. -/
def resetW (st : WriterSt) : WriterSt :=
  { st with hasWriter := false, wstate := WState.BEGIN }

/-- `MXFWriter::OpenWrite` (lines 84-215): `STATE` unless in `BEGIN`;
otherwise allocate a fresh `h__Writer`, write the header (leaving the file at
`headerEnd`), record `m_ClipStart`, write the 16-byte element UL followed by
an 8-byte zero BER placeholder, set `m_StreamOffset` to `RESERVED_KL_SIZE`
(24) and move to `READY`. -/
def openWrite (st : WriterSt) (headerEnd : Nat) (elementUL : List Nat) :
    Result × WriterSt :=
  if st.wstate ≠ WState.BEGIN then (Result.STATE, st)
  else
    match write_BER 0 8 with
    | none => (Result.FAIL, resetW st)
    | some ber0 =>
      let clipBuf := elementUL ++ ber0
      (Result.OK,
        { wstate := WState.READY, hasWriter := true, clipStart := headerEnd,
          streamOffset := 24, framesWritten := 0, indexEntries := [],
          filePos := headerEnd + clipBuf.length,
          file := writeBytesAt st.file headerEnd clipBuf })

/-- `MXFWriter::WriteFrame` (lines 218-267): `INIT` in `BEGIN`; otherwise
push an index entry carrying the current `m_StreamOffset`, append the frame
bytes, bump the frame counter, advance `m_StreamOffset` (32-bit) and move to
`RUNNING`. -/
def writeFrame (st : WriterSt) (frame : List Nat) : Result × WriterSt :=
  if st.wstate = WState.BEGIN then (Result.INIT, st)
  else
    (Result.OK,
      { st with
        indexEntries := st.indexEntries ++ [st.streamOffset],
        file := writeBytesAt st.file st.filePos frame,
        filePos := st.filePos + frame.length,
        framesWritten := st.framesWritten + 1,
        streamOffset := (st.streamOffset + frame.length) % 2 ^ 32,
        wstate := WState.RUNNING })

/-- `MXFWriter::FinalizeClip` (lines 270-315): `INIT` in `BEGIN`; otherwise
save the position, seek to `m_ClipStart + 16`, write the 8-byte BER encoding
of `(ui64)m_StreamOffset - RESERVED_KL_SIZE` and seek back. -/
def finalizeClip (st : WriterSt) : Result × WriterSt :=
  if st.wstate = WState.BEGIN then (Result.INIT, st)
  else
    match write_BER ((st.streamOffset + 2 ^ 64 - 24) % 2 ^ 64) 8 with
    | none => (Result.FAIL, resetW st)
    | some ber =>
      (Result.OK, { st with file := writeBytesAt st.file (st.clipStart + 16) ber })

/-- `MXFWriter::FinalizeMxf` (lines 318-343): there is no state guard; the
method immediately calls through `m_Writer`, so with a null handle (state
`BEGIN`) the call has no defined result, modelled as `none`.  Otherwise the
footer is written (abstracted by `footerOK`) and the writer resets. -/
def finalizeMxf (footerOK : Bool) (st : WriterSt) : Option (Result × WriterSt) :=
  if !st.hasWriter then none
  else some (if footerOK then Result.OK else Result.FAIL, resetW st)

/-- `MXFWriter::WriteMetadata` (lines 706-784): again no state guard; the
first statement dereferences `m_Writer`, so with a null handle the call has
no defined result (`none`).  The generic-stream partition machinery is
abstracted. -/
def writeMetadata (st : WriterSt) : Option (Result × WriterSt) :=
  if !st.hasWriter then none
  else some (Result.OK, st)

/-- Sum of the frame sizes of a write session. -/
def sumLens (fs : List (List Nat)) : Nat := (fs.map List.length).sum

/-- Iterated `WriteFrame`. -/
def writeFrames (st : WriterSt) (fs : List (List Nat)) : WriterSt :=
  fs.foldl (fun s f => (writeFrame s f).snd) st

/-! ## IAB reader state machine (AS_02_IAB.cpp, AS_02::IAB::MXFReader)

The parsed index (`m_IndexAccess`) and the file bytes are the reader's
environment.  `IndexTableSegment::Lookup` is Kumu/MXF machinery outside the
three source files and is modelled from the spec: lookup of frame `n`
succeeds exactly when `n` is below the index duration, and is a pure
in-memory operation.  File seeks and reads always succeed in the model; the
explicit seek and read calls issued by `ReadFrame` are recorded as events. -/

inductive RdState where
  | BEGIN
  | READY
  | RUNNING
deriving DecidableEq, Repr

/-- A file operation performed by the reader. -/
inductive FileOp where
  | seekTo (pos : Nat)
  | readAt (pos count : Nat)
deriving DecidableEq, Repr

/-- Reader environment: the index (one stream offset per frame, so the frame
count is its length) and the file bytes. -/
structure ReaderEnv where
  indexOffsets : List Nat
  fileBytes : List Nat
deriving DecidableEq, Repr

/-- State of an `AS_02::IAB::MXFReader`: the reader state, whether `m_Reader`
is non-null, the signed cached frame index `m_CurrentFrameIndex`, the cached
frame buffer, and the file position. -/
structure ReaderSt where
  rstate : RdState
  hasReader : Bool
  currentFrameIndex : Int
  currentFrameBuffer : List Nat
  filePos : Nat
deriving DecidableEq, Repr

/-- The unsigned 32-bit value a signed index converts to when compared with
the `ui32_t` frame number. -/
def u32ofInt (i : Int) : Nat := (i % (2 ^ 32 : Int)).toNat

/-- `MXFReader::Reset` (lines 636-640): drop `m_Reader` and return to
`BEGIN`; the cached index and buffer are left as they are. -/
def resetReader (st : ReaderSt) : ReaderSt :=
  { st with hasReader := false, rstate := RdState.BEGIN }

/-- The reader state right after a successful `OpenRead` (lines 378-447):
`m_CurrentFrameIndex = -1`, a fresh empty frame buffer, state `READY`. -/
def openedReader (pos : Nat) : ReaderSt :=
  { rstate := RdState.READY, hasReader := true, currentFrameIndex := -1,
    currentFrameBuffer := [], filePos := pos }

/-- `k` file bytes starting at `pos` (bytes beyond the end read as 0). -/
def sliceBytes (f : List Nat) : Nat → Nat → List Nat
  | _, 0 => []
  | pos, k + 1 => f.getD pos 0 :: sliceBytes f (pos + 1) k

/-- The 32-bit big-endian length held in bytes 1..4 of a 5-byte TL. -/
def beLen32 (l : List Nat) : Nat :=
  (l.getD 1 0 * 2 ^ 24 + l.getD 2 0 * 2 ^ 16 + l.getD 3 0 * 2 ^ 8 + l.getD 4 0) % 2 ^ 32

/-- The reader state after the uncached path of `ReadFrame` read frame `n`
from stream offset `off`: the composed buffer is preamble TL, preamble,
frame TL, frame; the cached index becomes `n`; state `RUNNING`. -/
def readFresh (env : ReaderEnv) (st : ReaderSt) (n off : Nat) : ReaderSt :=
  let preTL := sliceBytes env.fileBytes off 5
  let preambleLen := beLen32 preTL
  let frameTL := sliceBytes env.fileBytes (off + 5 + preambleLen) 5
  let frameLen := beLen32 frameTL
  { st with
    currentFrameIndex := (n : Int),
    currentFrameBuffer :=
      preTL ++ sliceBytes env.fileBytes (off + 5) preambleLen
        ++ frameTL ++ sliceBytes env.fileBytes (off + 5 + preambleLen + 5) frameLen,
    filePos := off + 5 + preambleLen + 5 + frameLen,
    rstate := RdState.RUNNING }

/-- The file operations the uncached path of `ReadFrame` performs. -/
def opsFresh (env : ReaderEnv) (off : Nat) : List FileOp :=
  let preTL := sliceBytes env.fileBytes off 5
  let preambleLen := beLen32 preTL
  let frameTL := sliceBytes env.fileBytes (off + 5 + preambleLen) 5
  let frameLen := beLen32 frameTL
  [FileOp.seekTo off, FileOp.readAt off 5]
    ++ (if 0 < preambleLen then [FileOp.readAt (off + 5) preambleLen] else [])
    ++ [FileOp.readAt (off + 5 + preambleLen) 5]
    ++ (if 0 < frameLen then [FileOp.readAt (off + 5 + preambleLen + 5) frameLen] else [])

/-- `MXFReader::ReadFrame` (lines 479-606): `INIT` in `BEGIN`; if the
`ui32_t` frame number equals the converted cached index, no file operation is
performed and the cached buffer is served; otherwise the index is consulted
(failure throws, which resets the reader and surfaces `RANGE`), the file is
positioned at the entry's stream offset and the frame is composed from its
preamble and frame TLV parts.  In every success path the state becomes
`RUNNING`. -/
def readFrame (env : ReaderEnv) (st : ReaderSt) (n : Nat) :
    Result × ReaderSt × List FileOp :=
  if st.rstate = RdState.BEGIN then (Result.INIT, st, [])
  else if n = u32ofInt st.currentFrameIndex then
    (Result.OK, { st with rstate := RdState.RUNNING }, [])
  else
    match env.indexOffsets.get? n with
    | none => (Result.RANGE, resetReader st, [])
    | some off => (Result.OK, readFresh env st n off, opsFresh env off)

/-! ## OpenMXFRead (h__Reader.cpp, ASDCP::h__Reader::OpenMXFRead lines 102-128)

The Kumu file layer and the partition parsers are abstracted: `openOK` is the
outcome of `m_File.OpenRead`, `headerOK` that of
`m_HeaderPart.InitFromFile`, `rip` the header's RIP pair array,
`posAfterHeader` the file position after the header parse, and `bodyParse p`
the outcome and end position of `m_BodyPart.InitFromFile` started at `p`. -/

/-- A RIP pair: body SID and byte offset. -/
structure RipPair where
  bodySID : Nat
  byteOffset : Nat
deriving DecidableEq, Repr

/-- Outcome of `OpenMXFRead`: the result, `m_EssenceStart`, whether a body
partition pack was parsed, and the explicit seeks performed. -/
structure OpenReadOutcome where
  result : Result
  essenceStart : Nat
  bodyParsed : Bool
  ops : List FileOp
deriving DecidableEq, Repr

/-- `OpenMXFRead`: open, parse the header, and only when the RIP holds
exactly three pairs seek to the second pair's byte offset and parse a body
partition pack there; `m_EssenceStart` is the file position reached. -/
def openMXFRead (openOK headerOK : Bool) (rip : List RipPair) (posAfterHeader : Nat)
    (bodyParse : Nat → Bool × Nat) : OpenReadOutcome :=
  if !openOK then
    { result := Result.FAIL, essenceStart := 0, bodyParsed := false, ops := [] }
  else if !headerOK then
    { result := Result.FAIL, essenceStart := 0, bodyParsed := false, ops := [] }
  else
    match rip with
    | [_, p2, _] =>
      { result := if (bodyParse p2.byteOffset).fst then Result.OK else Result.FAIL,
        essenceStart := (bodyParse p2.byteOffset).snd,
        bodyParsed := true,
        ops := [FileOp.seekTo p2.byteOffset] }
    | _ =>
      { result := Result.OK, essenceStart := posAfterHeader,
        bodyParsed := false, ops := [] }

/-! ## Shared concrete test fixtures and helper lemmas -/

/-- A 16-byte essence element UL stand-in. -/
def ulTest : List Nat := List.replicate 16 6

/-- A concrete stand-in hash, sensitive to the input length and to the last
16 input bytes, used to separate the exact SMPTE derivation from a
carry-dropping one. -/
def padSha20 (l : List Nat) : List Nat :=
  List.replicate 4 (l.length % 256) ++ l.reverse.take 16

/-- A concrete stand-in hash for HMAC witnesses. -/
def sha20c (l : List Nat) : List Nat := List.replicate 20 (l.length % 256)

/-- A concrete reader environment with a single frame at stream offset 0. -/
def envW : ReaderEnv := { indexOffsets := [0], fileBytes := List.replicate 12 0 }

theorem u32ofInt_natCast (n : Nat) (h : n < 2 ^ 32) : u32ofInt (n : Int) = n := by
  unfold u32ofInt
  rw [Int.emod_eq_of_lt (by positivity) (by exact_mod_cast h)]
  simp

theorem writeFrames_props :
    ∀ (fs : List (List Nat)) (st : WriterSt), st.wstate ≠ WState.BEGIN →
      st.streamOffset < 2 ^ 32 →
      (writeFrames st fs).wstate ≠ WState.BEGIN ∧
      (writeFrames st fs).clipStart = st.clipStart ∧
      (writeFrames st fs).filePos = st.filePos + sumLens fs ∧
      (writeFrames st fs).streamOffset = (st.streamOffset + sumLens fs) % 2 ^ 32 := by
  intro fs
  induction fs with
  | nil =>
    intro st h hso
    refine ⟨h, rfl, ?_, ?_⟩
    · simp [writeFrames, sumLens]
    · simp only [writeFrames, List.foldl_nil, sumLens, List.map_nil, List.sum_nil,
        Nat.add_zero]
      exact (Nat.mod_eq_of_lt hso).symm
  | cons f fs ih =>
    intro st h hso
    have hstep : (writeFrame st f).snd = { st with
        indexEntries := st.indexEntries ++ [st.streamOffset],
        file := writeBytesAt st.file st.filePos f,
        filePos := st.filePos + f.length,
        framesWritten := st.framesWritten + 1,
        streamOffset := (st.streamOffset + f.length) % 2 ^ 32,
        wstate := WState.RUNNING } := by
      simp [writeFrame, h]
    have hwf : writeFrames st (f :: fs) = writeFrames ((writeFrame st f).snd) fs := rfl
    have hlt : (st.streamOffset + f.length) % 2 ^ 32 < 2 ^ 32 :=
      Nat.mod_lt _ (by norm_num)
    obtain ⟨ih1, ih2, ih3, ih4⟩ := ih ((writeFrame st f).snd)
      (by rw [hstep]; simp)
      (by rw [hstep]; exact hlt)
    rw [hwf]
    refine ⟨ih1, ?_, ?_, ?_⟩
    · rw [ih2, hstep]
    · rw [ih3, hstep]
      simp [sumLens]
      ring
    · rw [ih4, hstep]
      show ((st.streamOffset + f.length) % 2 ^ 32 + sumLens fs) % 2 ^ 32
          = (st.streamOffset + sumLens (f :: fs)) % 2 ^ 32
      rw [Nat.mod_add_mod]
      have hsl : sumLens (f :: fs) = f.length + sumLens fs := by simp [sumLens]
      rw [hsl, Nat.add_assoc]

theorem decodeBER_long7 (rest : List Nat) (h : rest.length = 7) :
    decodeBER (135 :: rest) = some (bytesToNat rest) := by
  have htake : rest.take (135 - 128) = rest := by
    apply List.take_of_length_le
    rw [h]
  simp [decodeBER, h, htake]

/-! ## Claim theorems -/

/-- C1 counterexample: on a freshly opened reader over a one-frame index,
`ReadFrame 5` does return `RANGE`, but the reader does not stay unchanged —
the catch block calls `Reset`, so its state drops back to `BEGIN` and the
inner reader handle is released. -/
theorem readFrame_range_mutates_cex :
    (readFrame envW (openedReader 0) 5).fst = Result.RANGE ∧
    (readFrame envW (openedReader 0) 5).snd.fst ≠ openedReader 0 ∧
    (readFrame envW (openedReader 0) 5).snd.fst.rstate = RdState.BEGIN := by
  decide

/-- C1 (amended): for every opened reader (state not `BEGIN`) and frame
number `n` at least the frame count (and distinct from the cached frame
index under unsigned conversion), `ReadFrame n` returns `RANGE` without any
file operation, but resets the reader: state `BEGIN`, inner reader handle
released; the cached frame index, cached buffer and file position fields are
left as they were. -/
theorem readFrame_range_resets (env : ReaderEnv) (st : ReaderSt) (n : Nat)
    (h1 : st.rstate ≠ RdState.BEGIN)
    (h2 : n ≠ u32ofInt st.currentFrameIndex)
    (h3 : env.indexOffsets.length ≤ n) :
    readFrame env st n = (Result.RANGE, resetReader st, []) := by
  unfold readFrame
  rw [if_neg h1, if_neg h2]
  have hg : env.indexOffsets.get? n = none := by
    rw [List.get?_eq_none]
    exact h3
  rw [hg]

/-- C1 witness: the amended theorem applied to a concrete opened reader over
a one-frame index and frame number 7. -/
theorem readFrame_range_resets_witness :
    readFrame envW (openedReader 3) 7 = (Result.RANGE, resetReader (openedReader 3), []) :=
  readFrame_range_resets envW (openedReader 3) 7 (by decide) (by decide) (by decide)

/-- C2 counterexample fixture: open a writer and write frames of sizes
10, 20 and 30. -/
def c2run : WriterSt :=
  (writeFrame (writeFrame (writeFrame (openWrite initWriter 16384 ulTest).snd
    (List.replicate 10 0)).snd (List.replicate 20 0)).snd (List.replicate 30 0)).snd

/-- C2 counterexample: the three index entries pushed carry stream offsets
24, 34, 54 — `m_StreamOffset` starts at `RESERVED_KL_SIZE` (24), so the
recorded offsets include the reserved clip KL and are not 0, 10, 30. -/
theorem writeFrame_stream_offsets_cex :
    c2run.indexEntries = [24, 34, 54] ∧ c2run.indexEntries ≠ [0, 10, 30] := by
  decide

/-- C2 (amended): after a successful `OpenWrite` and `WriteFrame` calls of
sizes 10, 20, 30, the pushed index entries carry stream offsets exactly
24, 34, 54 — `RESERVED_KL_SIZE` plus the cumulative preceding frame sizes,
i.e. offsets relative to `clip_start` (the first byte of the element UL),
not to the start of the clip value. -/
theorem writeFrame_stream_offsets_amended (st : WriterSt) (hdr : Nat)
    (ul f1 f2 f3 : List Nat) (hst : st.wstate = WState.BEGIN)
    (h1 : f1.length = 10) (h2 : f2.length = 20) (h3 : f3.length = 30) :
    (writeFrame (writeFrame (writeFrame (openWrite st hdr ul).snd f1).snd f2).snd
      f3).snd.indexEntries = [24, 34, 54] := by
  have hber : write_BER 0 8 = some [135, 0, 0, 0, 0, 0, 0, 0] := by decide
  simp [openWrite, writeFrame, hst, hber, h1, h2, h3]

/-- C2 witness: the amended theorem applied to a fresh writer and concrete
frames of sizes 10, 20, 30. -/
theorem writeFrame_stream_offsets_amended_witness :
    (writeFrame (writeFrame (writeFrame (openWrite initWriter 16384 ulTest).snd
      (List.replicate 10 0)).snd (List.replicate 20 0)).snd
      (List.replicate 30 0)).snd.indexEntries = [24, 34, 54] :=
  writeFrame_stream_offsets_amended initWriter 16384 ulTest
    (List.replicate 10 0) (List.replicate 20 0) (List.replicate 30 0)
    rfl (by decide) (by decide) (by decide)

/-- C3 (code bug): the guarded writer operations do return stable errors in
forbidden states — `WriteFrame` and `FinalizeClip` in `BEGIN` return `INIT`,
and a second `OpenWrite` before `FinalizeMxf` returns `STATE` — but
`FinalizeMxf` and `WriteMetadata` have no state guard at all: called in
`BEGIN` they immediately dereference the null `m_Writer` handle and so have
no defined result (modelled as `none`), contradicting the specified stable
`STATE`/`INIT` error. -/
theorem writer_forbidden_state_ops :
    finalizeMxf true initWriter = none ∧
    writeMetadata initWriter = none ∧
    (writeFrame initWriter [1]).fst = Result.INIT ∧
    (finalizeClip initWriter).fst = Result.INIT ∧
    (openWrite (openWrite initWriter 16384 ulTest).snd 16384 ulTest).fst
      = Result.STATE := by
  decide

/-- C4: for every successful write session (fresh writer, `OpenWrite`, then
frames `fs`, with the total essence size fitting the 32-bit stream offset),
`FinalizeClip` succeeds, the 8 bytes at `clip_start + 16` afterwards hold a
BER length that decodes to the sum of all frame sizes, and the file position
is restored to its pre-finalize value. -/
theorem finalizeClip_backpatch (st0 : WriterSt) (hdr : Nat) (ul : List Nat)
    (fs : List (List Nat)) (hst : st0.wstate = WState.BEGIN) (hul : ul.length = 16)
    (hsum : 24 + sumLens fs < 2 ^ 32) :
    (finalizeClip (writeFrames (openWrite st0 hdr ul).snd fs)).fst = Result.OK ∧
    (finalizeClip (writeFrames (openWrite st0 hdr ul).snd fs)).snd.filePos
      = (writeFrames (openWrite st0 hdr ul).snd fs).filePos ∧
    decodeBER (readBytesAt
        (finalizeClip (writeFrames (openWrite st0 hdr ul).snd fs)).snd.file
        (hdr + 16) 8) = some (sumLens fs) := by
  clear hul
  have hopen : (openWrite st0 hdr ul).snd =
      { wstate := WState.READY, hasWriter := true, clipStart := hdr,
        streamOffset := 24, framesWritten := 0, indexEntries := [],
        filePos := hdr + (ul ++ [135, 0, 0, 0, 0, 0, 0, 0]).length,
        file := writeBytesAt st0.file hdr (ul ++ [135, 0, 0, 0, 0, 0, 0, 0]) } := by
    have hber : write_BER 0 8 = some [135, 0, 0, 0, 0, 0, 0, 0] := by decide
    simp [openWrite, hst, hber]
  obtain ⟨hw, hcs, hfp, hso⟩ := writeFrames_props fs (openWrite st0 hdr ul).snd
    (by rw [hopen]; simp) (by rw [hopen]; norm_num)
  set st2 := writeFrames (openWrite st0 hdr ul).snd fs with hst2
  have hcs2 : st2.clipStart = hdr := by rw [hcs, hopen]
  have hso2 : st2.streamOffset = 24 + sumLens fs := by
    rw [hso, hopen]
    exact Nat.mod_eq_of_lt hsum
  have hS32 : sumLens fs < 2 ^ 32 := lt_of_le_of_lt (Nat.le_add_left _ 24) hsum
  have hsize : (st2.streamOffset + 2 ^ 64 - 24) % 2 ^ 64 = sumLens fs := by
    rw [hso2]
    have h1 : 24 + sumLens fs + 2 ^ 64 - 24 = sumLens fs + 2 ^ 64 := by omega
    rw [h1, Nat.add_mod_right]
    exact Nat.mod_eq_of_lt (lt_trans hS32 (by norm_num))
  have hfit : (st2.streamOffset + 2 ^ 64 - 24) % 2 ^ 64 < 256 ^ (8 - 1) := by
    rw [hsize]
    exact lt_trans hS32 (by norm_num)
  have hber2 : write_BER ((st2.streamOffset + 2 ^ 64 - 24) % 2 ^ 64) 8
      = some (135 :: natBytesFixed ((st2.streamOffset + 2 ^ 64 - 24) % 2 ^ 64) 7) := by
    unfold write_BER
    rw [if_neg (by norm_num), if_pos hfit]
  have hfin : finalizeClip st2 = (Result.OK,
      { st2 with file := (writeBytesAt st2.file (st2.clipStart + 16) (135 :: natBytesFixed ((st2.streamOffset + 2 ^ 64 - 24) % 2 ^ 64) 7)) }) := by
    unfold finalizeClip
    rw [if_neg hw, hber2]
  refine ⟨by rw [hfin], by rw [hfin], ?_⟩
  rw [hfin]
  show decodeBER (readBytesAt (writeBytesAt st2.file (st2.clipStart + 16)
      (135 :: natBytesFixed ((st2.streamOffset + 2 ^ 64 - 24) % 2 ^ 64) 7)) (hdr + 16) 8)
    = some (sumLens fs)
  rw [hcs2]
  have hlen : (8 : Nat)
      = (135 :: natBytesFixed ((st2.streamOffset + 2 ^ 64 - 24) % 2 ^ 64) 7).length := by
    simp [natBytesFixed_length]
  rw [hlen, readBytesAt_writeBytesAt]
  rw [hsize]
  rw [decodeBER_long7 _ (natBytesFixed_length _ 7), bytesToNat_natBytesFixed]
  rw [Nat.mod_eq_of_lt (lt_trans hS32 (by norm_num))]

/-- C4 witness: the back-patch theorem applied to a fresh writer, a header
ending at 100, the test UL, and a single 3-byte frame. -/
theorem finalizeClip_backpatch_witness :
    (finalizeClip (writeFrames (openWrite initWriter 100 ulTest).snd [[1, 2, 3]])).fst
      = Result.OK ∧
    (finalizeClip (writeFrames (openWrite initWriter 100 ulTest).snd
        [[1, 2, 3]])).snd.filePos
      = (writeFrames (openWrite initWriter 100 ulTest).snd [[1, 2, 3]]).filePos ∧
    decodeBER (readBytesAt
        (finalizeClip (writeFrames (openWrite initWriter 100 ulTest).snd
          [[1, 2, 3]])).snd.file (100 + 16) 8) = some (sumLens [[1, 2, 3]]) :=
  finalizeClip_backpatch initWriter 100 ulTest [[1, 2, 3]] rfl (by decide) (by decide)

/-- C5: CBC encryption followed by CBC decryption with the same key schedule
pair and the same IV restores every plaintext consisting of 16-byte blocks,
given that the block cipher decryption inverts encryption (true of the
AES-128 schedules derived from one key) and preserves the block size. -/
theorem cbc_roundtrip (ecb dec : List Nat → List Nat) (iv : List Nat)
    (pts : List (List Nat))
    (hinv : ∀ b : List Nat, b.length = 16 → dec (ecb b) = b)
    (hecb : ∀ b : List Nat, b.length = 16 → (ecb b).length = 16)
    (hiv : iv.length = 16)
    (hpts : ∀ p ∈ pts, p.length = 16) (hne : pts ≠ []) :
    (decryptCBC dec iv (encryptCBC ecb iv pts).fst).fst = pts := by
  clear hne
  induction pts generalizing iv with
  | nil => rfl
  | cons p rest ih =>
    have hp : p.length = 16 := hpts p (by simp)
    have hxorlen : (xorBytes p iv).length = 16 := by
      rw [xorBytes_length p iv (by rw [hp, hiv])]
      exact hp
    have hct : (ecb (xorBytes p iv)).length = 16 := hecb _ hxorlen
    show (decryptCBC dec iv
        (ecb (xorBytes p iv) :: (encryptCBC ecb (ecb (xorBytes p iv)) rest).fst)).fst
      = p :: rest
    show (xorBytes (dec (ecb (xorBytes p iv))) iv ::
        (decryptCBC dec (ecb (xorBytes p iv))
          (encryptCBC ecb (ecb (xorBytes p iv)) rest).fst).fst) = p :: rest
    rw [hinv _ hxorlen]
    rw [xorBytes_cancel p iv (by rw [hp, hiv])]
    rw [ih (ecb (xorBytes p iv)) hct (fun q hq => hpts q (by simp [hq]))]

/-- C5 witness: the round trip applied with the identity block permutation,
the zero IV, and one block of 7s. -/
theorem cbc_roundtrip_witness :
    (decryptCBC id (List.replicate 16 0)
      (encryptCBC id (List.replicate 16 0) [List.replicate 16 7]).fst).fst
      = [List.replicate 16 7] :=
  cbc_roundtrip id id (List.replicate 16 0) [List.replicate 16 7]
    (fun _ _ => rfl) (fun _ hb => hb) rfl (by decide) (by decide)

/-- C6: the SMPTE MIC key derivation computes exactly the spec formula —
`x0 = SHA1(t || key)`, then `xkey1 = (key + 1 + x0) mod 2^160` with exact
big-integer addition, then the first 16 bytes of `SHA1(t || xkey1)` — and it
differs from the carry-dropping 128-bit variant (witnessed at the all-ones
key), so the carry out of 128 bits really is preserved. -/
theorem setKey_smpte_exact_bigint :
    (∀ (sha1 : List Nat → List Nat) (key : List Nat),
        setKeyCode sha1 key = setKeySpecFormula sha1 key) ∧
    setKeyCode padSha20 keyAllFF ≠ setKeyDropCarry padSha20 keyAllFF :=
  ⟨fun _ _ => rfl, by decide⟩

/-- C7: immediately after a successful `OpenRead` the cached frame index is
the sentinel `-1`; calling `ReadFrame` with frame number `2^32 - 1` compares
equal to the sentinel under unsigned conversion, so for every environment
the reader skips the lookup and range check, performs no file operation, and
returns `OK` with the empty cached buffer. -/
theorem readFrame_sentinel_alias (env : ReaderEnv) (pos : Nat) :
    readFrame env (openedReader pos) 4294967295
      = (Result.OK, { openedReader pos with rstate := RdState.RUNNING }, []) ∧
    (readFrame env (openedReader pos) 4294967295).snd.fst.currentFrameBuffer = [] := by
  have hne : (openedReader pos).rstate ≠ RdState.BEGIN := by simp [openedReader]
  have hcond : (4294967295 : Nat) = u32ofInt (openedReader pos).currentFrameIndex := by
    show (4294967295 : Nat) = u32ofInt (-1)
    decide
  constructor
  · unfold readFrame
    rw [if_neg hne, if_pos hcond]
  · unfold readFrame
    rw [if_neg hne, if_pos hcond]
    simp [openedReader]

/-- C8: the HMAC context state machine — `Update` after finalization returns
`INIT` and leaves the whole context (including the running digest state)
unchanged; `GetHMACValue` and `TestHMACValue` before finalization return
`INIT`; after `InitKey` an `Update` succeeds; and after a `Finalize` from a
live unfinalized context, `GetHMACValue` succeeds. -/
theorem hmac_state_machine (sha1 : List Nat → List Nat) (st : HmacSt)
    (buf key : List Nat) :
    (st.mFinal = true → hmacUpdate st buf = (Result.INIT, st)) ∧
    (st.mFinal = false → (getHMACValue st).fst = Result.INIT ∧
      testHMACValue st buf = Result.INIT) ∧
    (hmacUpdate (hmacInitKey sha1 key LabelSet.smpte).snd buf).fst = Result.OK ∧
    (st.hasContext = true → st.mFinal = false →
      (getHMACValue (hmacFinalize sha1 st).snd).fst = Result.OK) := by
  refine ⟨?_, ?_, ?_, ?_⟩
  · intro h
    simp [hmacUpdate, h]
  · intro h
    refine ⟨?_, ?_⟩ <;> simp [getHMACValue, testHMACValue, h]
  · simp [hmacInitKey, hmacReset, hmacUpdate, hmacNull]
  · intro hc hf
    simp [hmacFinalize, getHMACValue, hc, hf]

/-- C8 witness fixture: a context after `InitKey`. -/
def hmacReady : HmacSt := (hmacInitKey sha20c (List.replicate 16 2) LabelSet.smpte).snd

/-- C8 witness fixture: a context after `Finalize`. -/
def hmacDone : HmacSt := (hmacFinalize sha20c hmacReady).snd

/-- C8 witness: the state machine theorem applied to concrete contexts. -/
theorem hmac_state_machine_witness :
    hmacUpdate hmacDone [3] = (Result.INIT, hmacDone) ∧
    (getHMACValue hmacReady).fst = Result.INIT ∧
    (hmacUpdate hmacReady [3]).fst = Result.OK ∧
    (getHMACValue (hmacFinalize sha20c hmacReady).snd).fst = Result.OK :=
  ⟨(hmac_state_machine sha20c hmacDone [3] []).1 (by decide),
   ((hmac_state_machine sha20c hmacReady [3] []).2.1 (by decide)).1,
   (hmac_state_machine sha20c hmacReady [3] (List.replicate 16 2)).2.2.1,
   (hmac_state_machine sha20c hmacReady [3] []).2.2.2 (by decide) (by decide)⟩

/-- C9: if `ReadFrame k` just succeeded (for a 32-bit frame number), a second
consecutive `ReadFrame k` performs no file operation at all — no seek, no
read — and returns the identical state: same cached buffer, same cached
frame index, same file position. -/
theorem readFrame_cache_no_io (env : ReaderEnv) (st st1 : ReaderSt) (n : Nat)
    (ops1 : List FileOp) (hn : n < 2 ^ 32)
    (h1 : readFrame env st n = (Result.OK, st1, ops1)) :
    readFrame env st1 n = (Result.OK, st1, []) := by
  unfold readFrame at h1
  by_cases hb : st.rstate = RdState.BEGIN
  · rw [if_pos hb] at h1
    simp at h1
  · rw [if_neg hb] at h1
    by_cases hc : n = u32ofInt st.currentFrameIndex
    · rw [if_pos hc] at h1
      have hst1 : st1 = { st with rstate := RdState.RUNNING } := by
        have h2 := congrArg (fun x => x.snd.fst) h1
        simpa using h2.symm
      subst hst1
      unfold readFrame
      rw [if_neg (by simp), if_pos (by simpa using hc)]
    · rw [if_neg hc] at h1
      cases hget : env.indexOffsets.get? n with
      | none =>
        rw [hget] at h1
        simp at h1
      | some off =>
        rw [hget] at h1
        have hst1 : st1 = readFresh env st n off := by
          have h2 := congrArg (fun x => x.snd.fst) h1
          simpa using h2.symm
        subst hst1
        unfold readFrame
        rw [if_neg (by simp [readFresh]), if_pos ?hcnd]
        case hcnd =>
          show n = u32ofInt (readFresh env st n off).currentFrameIndex
          simp only [readFresh]
          exact (u32ofInt_natCast n hn).symm
        simp [readFresh]

/-- C9 witness: the cache theorem applied to a concrete first read of frame 0
in the one-frame environment. -/
theorem readFrame_cache_no_io_witness :
    readFrame envW (readFrame envW (openedReader 3) 0).snd.fst 0
      = (Result.OK, (readFrame envW (openedReader 3) 0).snd.fst, []) :=
  readFrame_cache_no_io envW (openedReader 3)
    ((readFrame envW (openedReader 3) 0).snd.fst) 0
    ((readFrame envW (openedReader 3) 0).snd.snd) (by decide) (by decide)

/-- C10: with the file open and the header parsed, a three-pair RIP makes
`OpenMXFRead` seek to the second pair's byte offset and parse a body
partition pack there, recording `essence_start` as the position the body
parse reaches; a two-pair RIP parses no body partition and records
`essence_start` as the position right after the header parse. -/
theorem openMXFRead_rip_pairs (a b c : RipPair) (posH : Nat)
    (bodyParse : Nat → Bool × Nat) :
    ((openMXFRead true true [a, b, c] posH bodyParse).bodyParsed = true ∧
     (openMXFRead true true [a, b, c] posH bodyParse).ops
        = [FileOp.seekTo b.byteOffset] ∧
     (openMXFRead true true [a, b, c] posH bodyParse).essenceStart
        = (bodyParse b.byteOffset).snd) ∧
    ((openMXFRead true true [a, b] posH bodyParse).bodyParsed = false ∧
     (openMXFRead true true [a, b] posH bodyParse).ops = [] ∧
     (openMXFRead true true [a, b] posH bodyParse).essenceStart = posH) :=
  ⟨⟨rfl, rfl, rfl⟩, ⟨rfl, rfl, rfl⟩⟩

end Asdcp
